import Mathlib

/-!
Verification of the `query` package of `lithic-go` (struct-to-query-string
marshaler, `src/core/query/query.go`) together with the generated request
type `CardListParams` (package `requests`) that delegates to it.

The repository sources under `src/` contain the public surface of the
`query` package (`MarshalWithSettings`, `Marshal`, `Queryer`,
`QuerySettings`, the `NestedQueryFormat` / `ArrayQueryFormat` constants and
the struct-tag constants) and the generated `requests` structs.  The body
of the recursive encoder reached through `encoder.typeEncoder` is not part
of `src/`; where a definition embeds that missing code it is modelled from
the specification and its doc comment says so explicitly.
-/

set_option autoImplicit false

/-- Source: `const queryStructTag = "query"` — the struct tag carrying a
field's query-parameter key. -/
def queryStructTag : String := "query"

/-- Source: `const pathParamStructTag = "pathparam"` — the struct tag that
marks a field as a path parameter, excluded from query encoding. -/
def pathParamStructTag : String := "pathparam"

/-- Source: `type NestedQueryFormat int`. -/
abbrev NestedQueryFormat := Int

/-- Source: `NestedQueryFormatBrackets` is the first `iota` constant, 0. -/
def NestedQueryFormatBrackets : NestedQueryFormat := 0

/-- Source: `NestedQueryFormatDots` is the second `iota` constant, 1. -/
def NestedQueryFormatDots : NestedQueryFormat := 1

/-- Source: `type ArrayQueryFormat int`. -/
abbrev ArrayQueryFormat := Int

/-- Source: `ArrayQueryFormatComma = iota` (0). -/
def ArrayQueryFormatComma : ArrayQueryFormat := 0

/-- Source: `ArrayQueryFormatRepeat` (1). -/
def ArrayQueryFormatRepeat : ArrayQueryFormat := 1

/-- Source: `ArrayQueryFormatIndices` (2). -/
def ArrayQueryFormatIndices : ArrayQueryFormat := 2

/-- Source: `ArrayQueryFormatBrackets` (3). -/
def ArrayQueryFormatBrackets : ArrayQueryFormat := 3

/-- Source: `type QuerySettings struct { NestedFormat NestedQueryFormat;
ArrayFormat ArrayQueryFormat }`.  The Go zero value of this struct is
`⟨0, 0⟩`. -/
structure QuerySettings where
  NestedFormat : NestedQueryFormat
  ArrayFormat : ArrayQueryFormat
deriving DecidableEq, Repr

/-- Modelled from the spec: the scalar kinds of §4.1 step 5 that the claims
exercise — booleans (`"true"`/`"false"`), integers (canonical decimal
text), plain strings (unchanged), and timestamps already carried as their
RFC 3339 text.  Floats and base64 byte sequences are listed by the spec but
touched by no claim and are omitted. -/
inductive Scalar : Type where
  | boolVal (b : Bool)
  | intVal (n : Int)
  | strVal (s : String)
  | timeVal (rfc3339 : String)
deriving DecidableEq, Repr

/-- Modelled from the spec (§4.1 step 5): canonical string representation
of a scalar. -/
def Scalar.format : Scalar → String
  | .boolVal b => if b then "true" else "false"
  | .intVal n => toString n
  | .strVal s => s
  | .timeVal t => t

/-- Modelled from the spec (§3): `EncodableValue`, the tagged union the
encoder walks — Absent, Scalar, Struct (ordered fields), Sequence, Mapping
(insertion order preserved).  The `queryer` constructor embeds the
capability check for the source's `Queryer` interface (`URLQuery()
url.Values`): a value implementing it is represented by the ordered pairs
its own encoding produces.  A struct field is `(key, value, pathParam)`:
`key` from the `query` struct tag (empty when the tag is unusable),
`pathParam` true when the field carries the `pathparam` tag. -/
inductive EncodableValue : Type where
  | absent : EncodableValue
  | scalar (sc : Scalar) : EncodableValue
  | queryer (pairs : List (String × String)) : EncodableValue
  | struct (fields : List (String × EncodableValue × Bool)) : EncodableValue
  | seq (elems : List EncodableValue) : EncodableValue
  | mapping (entries : List (String × EncodableValue)) : EncodableValue

/-- Modelled from the spec (§3): a struct member — key, value, and the
path-parameter exclusion flag. -/
abbrev NamedField := String × EncodableValue × Bool

/-- Modelled from the spec (§4.1 step 3): the child key from the current
prefix and a field key.  Empty prefix yields the field key itself;
otherwise `Dots` joins with `.` and `Brackets` (the zero value, hence also
the default) wraps the field key in `[...]`. -/
def childKey (nf : NestedQueryFormat) (pfx key : String) : String :=
  if pfx = "" then key
  else if nf = NestedQueryFormatDots then pfx ++ "." ++ key
  else pfx ++ "[" ++ key ++ "]"

/-- Modelled from the spec (§4.1 step 4, `Comma`/`Repeat`): the scalar
string of a sequence element, when the element reduces to a scalar. -/
def scalarOf : EncodableValue → Option String
  | .scalar sc => some sc.format
  | _ => none

/-- Modelled from the spec (§4.1 step 4, `Comma`): comma-join of the
scalar strings of a sequence's elements; non-scalar elements degrade by
omission (§4.1 error conditions). -/
def joinScalars (es : List EncodableValue) : String :=
  String.intercalate "," (es.filterMap scalarOf)

mutual

/-- Modelled from the spec (§4.1 steps 2–4 and 6): the recursive encoder
behind the source's `encoder.typeEncoder`, producing the ordered pair list
for a value at the current key prefix.  Absent emits nothing; a scalar
emits one pair at the current prefix; a `Queryer` value's own pairs are
spliced with their keys re-prefixed; structs and mappings recurse in
declaration/insertion order; sequences follow the configured
`ArrayQueryFormat` (the zero value / default being `Comma`). -/
def encodeValue (s : QuerySettings) (pfx : String) : EncodableValue → List (String × String)
  | .absent => []
  | .scalar sc => [(pfx, sc.format)]
  | .queryer ps => ps.map (fun p => (childKey s.NestedFormat pfx p.1, p.2))
  | .struct fs => encodeFields s pfx fs
  | .mapping es => encodeEntries s pfx es
  | .seq es =>
    if s.ArrayFormat = ArrayQueryFormatRepeat then
      es.filterMap (fun e => (scalarOf e).map (fun str => (pfx, str)))
    else if s.ArrayFormat = ArrayQueryFormatIndices then
      encodeIndexed s pfx 0 es
    else if s.ArrayFormat = ArrayQueryFormatBrackets then
      encodeBracketed s pfx es
    else
      [(pfx, joinScalars es)]

/-- Modelled from the spec (§4.1 step 4, Struct): encode the fields in
declaration order and concatenate. -/
def encodeFields (s : QuerySettings) (pfx : String) : List NamedField → List (String × String)
  | [] => []
  | f :: fs => encodeField s pfx f ++ encodeFields s pfx fs

/-- Modelled from the spec (§4.1 step 1): a path-parameter field, or a
field lacking a usable key, is skipped; otherwise its value is encoded at
the child key. -/
def encodeField (s : QuerySettings) (pfx : String) : NamedField → List (String × String)
  | (key, v, pathParam) =>
    if pathParam then []
    else if key = "" then []
    else encodeValue s (childKey s.NestedFormat pfx key) v

/-- Modelled from the spec (§4.1 step 4, Mapping): encode the entries in
insertion order, each under the child key of its mapping key. -/
def encodeEntries (s : QuerySettings) (pfx : String) : List (String × EncodableValue) → List (String × String)
  | [] => []
  | (k, v) :: es => encodeValue s (childKey s.NestedFormat pfx k) v ++ encodeEntries s pfx es

/-- Modelled from the spec (§4.1 step 4, `Indices`): element `i` is
encoded at `childKey[i]` (bracket form) or `childKey.i` (dot form). -/
def encodeIndexed (s : QuerySettings) (pfx : String) (i : Nat) : List EncodableValue → List (String × String)
  | [] => []
  | e :: es => encodeValue s (childKey s.NestedFormat pfx (toString i)) e ++ encodeIndexed s pfx (i + 1) es

/-- Modelled from the spec (§4.1 step 4, `Brackets`): every element is
encoded at the literal `childKey[]`. -/
def encodeBracketed (s : QuerySettings) (pfx : String) : List EncodableValue → List (String × String)
  | [] => []
  | e :: es => encodeValue s (pfx ++ "[]") e ++ encodeBracketed s pfx es

end

/-- Go's `url.Values` is `map[string][]string`: an unordered finite map
from keys to ordered value lists.  It is embedded as an association list
without duplicate keys; the list order (first-insertion order) is an
artifact of the representation — a Go map exposes no key order, so map
equality is `Values.Equiv` (same value list at every key), not equality of
representations. -/
def Values : Type := List (String × List String)

instance : DecidableEq Values := by
  unfold Values
  infer_instance

/-- Go's `url.Values.Add(key, value)` appends `value` to the slice at
`key`, creating the entry when the key is absent. -/
def Values.add : Values → String → String → Values
  | [], key, value => [(key, [value])]
  | (k, vs) :: rest, key, value =>
    if key = k then (k, vs ++ [value]) :: rest
    else (k, vs) :: Values.add rest key value

/-- Reading `v[key]` from a Go map: the value list at `key`, `[]` when the
key is absent (Go's nil slice). -/
def Values.get : Values → String → List String
  | [], _ => []
  | (k, vs) :: rest, key => if key = k then vs else Values.get rest key

/-- Equality of Go maps: the same value list at every key.  Two `Values`
representations related by `Equiv` are indistinguishable through
`url.Values`, whose key order is not observable. -/
def Values.Equiv (kv kv' : Values) : Prop :=
  ∀ key, Values.get kv key = Values.get kv' key

/-- The `kv.Add` loop of `MarshalWithSettings` (source lines 13–21): fold
`Add` over the encoder's ordered pair list, starting from `url.Values{}`. -/
def Values.ofPairs (ps : List (String × String)) : Values :=
  ps.foldl (fun kv p => Values.add kv p.1 p.2) []

/-- Source: `func MarshalWithSettings(value interface{}, settings
QuerySettings) url.Values`.  The Go `value interface{}` argument is an
`Option EncodableValue`: `none` is the nil interface, for which
`reflect.ValueOf(value)` is invalid and the function returns `nil` (the
empty map, canonically `[]`); otherwise the pairs of
`e.typeEncoder(typ)("", val)` are `Add`ed into a fresh `url.Values`.
The encoder body behind `typeEncoder` is modelled from the spec
(`encodeValue`). -/
def MarshalWithSettings (value : Option EncodableValue) (settings : QuerySettings) : Values :=
  match value with
  | none => []
  | some val => Values.ofPairs (encodeValue settings "" val)

/-- Source: `func Marshal(value interface{}) url.Values { return
MarshalWithSettings(value, QuerySettings{}) }` — the Go zero value of
`QuerySettings` has both `int` fields 0. -/
def Marshal (value : Option EncodableValue) : Values :=
  MarshalWithSettings value ⟨0, 0⟩

/-- Modelled from the spec (§9, missing `fields` package): the optional
wrapper `fields.Field[T]`, a presence box `{Present(T), Absent}`;
collapses to Absent when unset, else to the classification of the wrapped
value. -/
inductive Fields.Field (α : Type) : Type where
  | absent : Fields.Field α
  | present (a : α) : Fields.Field α

/-- Go's `time.Time` as it matters to query encoding: its RFC 3339 text
(the missing `time` package is external; only the formatted text reaches
the encoder). -/
abbrev GoTime := String

/-- Source (package `requests`): `type CardListParams struct` with fields
`AccountToken fields.Field[string] `query:"account_token"``,
`Begin fields.Field[time.Time] `query:"begin"``,
`End fields.Field[time.Time] `query:"end"``,
`Page fields.Field[int64] `query:"page"``,
`PageSize fields.Field[int64] `query:"page_size"``, in that declaration
order.  `int64` is carried as `Int`; no arithmetic occurs, so no overflow
reduction arises. -/
structure CardListParams where
  AccountToken : Fields.Field String
  Begin : Fields.Field GoTime
  End : Fields.Field GoTime
  Page : Fields.Field Int
  PageSize : Fields.Field Int

/-- Modelled from the spec (§4.1 step 1, the reflective field walk of the
missing encoder body, applied to the declared shape of `CardListParams`):
each field under its `query` tag key, in declaration order, none tagged
`pathparam`; a `Field` wrapper collapses to Absent or to its wrapped
scalar. -/
def CardListParams.reflect (r : CardListParams) : EncodableValue :=
  .struct
    [ ("account_token", (match r.AccountToken with | .absent => .absent | .present a => .scalar (.strVal a)), false)
    , ("begin", (match r.Begin with | .absent => .absent | .present t => .scalar (.timeVal t)), false)
    , ("end", (match r.End with | .absent => .absent | .present t => .scalar (.timeVal t)), false)
    , ("page", (match r.Page with | .absent => .absent | .present n => .scalar (.intVal n)), false)
    , ("page_size", (match r.PageSize with | .absent => .absent | .present n => .scalar (.intVal n)), false)
    ]

/-- Source (package `requests`): `func (r *CardListParams) URLQuery() (v
url.Values) { return query.Marshal(r) }` — the `Queryer` implementation of
`CardListParams` delegates to the encoder with default settings. -/
def CardListParams.URLQuery (r : CardListParams) : Values :=
  Marshal (some r.reflect)

/-- Appending a value under `key` leaves reads at `key` with the old list
extended by that value. -/
theorem Values.get_add_self (kv : Values) (key value : String) :
    Values.get (Values.add kv key value) key = Values.get kv key ++ [value] := by
  induction kv with
  | nil => simp [Values.add, Values.get]
  | cons p rest ih =>
    obtain ⟨k, vs⟩ := p
    by_cases h : key = k
    · simp [Values.add, Values.get, h]
    · simp [Values.add, Values.get, h, ih]

/-- Appending a value under another key leaves reads at `key` unchanged. -/
theorem Values.get_add_ne (kv : Values) (key other value : String) (h : ¬ key = other) :
    Values.get (Values.add kv other value) key = Values.get kv key := by
  induction kv with
  | nil => simp [Values.add, Values.get, h]
  | cons p rest ih =>
    obtain ⟨k, vs⟩ := p
    by_cases hk : other = k
    · subst hk
      simp [Values.add, Values.get, h]
    · by_cases hkey : key = k
      · simp [Values.add, Values.get, hk, hkey]
      · simp [Values.add, Values.get, hk, hkey, ih]

/-- Folding `Add` over a pair list extends each key's value list by the
values emitted for that key, in emission order. -/
theorem Values.get_foldl_add (ps : List (String × String)) (key : String) :
    ∀ kv : Values,
      Values.get (ps.foldl (fun kv p => Values.add kv p.1 p.2) kv) key =
        Values.get kv key ++ ps.filterMap (fun p => if p.1 = key then some p.2 else none) := by
  induction ps with
  | nil => intro kv; simp
  | cons p ps ih =>
    intro kv
    rw [List.foldl_cons, ih]
    by_cases h : p.1 = key
    · subst h
      simp [List.filterMap_cons, Values.get_add_self]
    · simp [List.filterMap_cons, h, Values.get_add_ne _ _ _ _ (fun hh => h hh.symm)]

/-- The `url.Values` built by the `kv.Add` loop of `MarshalWithSettings`
holds, at each key, exactly the values the encoder emitted for that key,
in emission order. -/
theorem Values.get_ofPairs (ps : List (String × String)) (key : String) :
    Values.get (Values.ofPairs ps) key =
      ps.filterMap (fun p => if p.1 = key then some p.2 else none) := by
  have h := Values.get_foldl_add ps key []
  simpa [Values.ofPairs, Values.get] using h

/-- The 3-element integer sequence `[1,2,3]` of the spec's array-format
example. -/
def seq123 : EncodableValue :=
  .seq [.scalar (.intVal 1), .scalar (.intVal 2), .scalar (.intVal 3)]

/-- C1: encoding the integer sequence `[1,2,3]` under key `"n"` yields one
pair `("n","1,2,3")` under `ArrayQueryFormatComma`; the three pairs
`("n","1"),("n","2"),("n","3")` in order under `ArrayQueryFormatRepeat`;
`("n[0]","1"),("n[1]","2"),("n[2]","3")` under `ArrayQueryFormatIndices`
with Brackets nesting; and `("n[]","1"),("n[]","2"),("n[]","3")` under
`ArrayQueryFormatBrackets`. -/
theorem encode_seq123_array_formats :
    encodeValue ⟨NestedQueryFormatBrackets, ArrayQueryFormatComma⟩ "" (.struct [("n", seq123, false)]) = [("n", "1,2,3")]
    ∧ encodeValue ⟨NestedQueryFormatBrackets, ArrayQueryFormatRepeat⟩ "" (.struct [("n", seq123, false)]) = [("n", "1"), ("n", "2"), ("n", "3")]
    ∧ encodeValue ⟨NestedQueryFormatBrackets, ArrayQueryFormatIndices⟩ "" (.struct [("n", seq123, false)]) = [("n[0]", "1"), ("n[1]", "2"), ("n[2]", "3")]
    ∧ encodeValue ⟨NestedQueryFormatBrackets, ArrayQueryFormatBrackets⟩ "" (.struct [("n", seq123, false)]) = [("n[]", "1"), ("n[]", "2"), ("n[]", "3")] := by
  refine ⟨?_, ?_, ?_, ?_⟩ <;> decide

/-- C2: the top-level entry point is a total function into `Values` — it
can never return or raise an error — and on a non-encodable input (the nil
interface, for which `reflect.ValueOf` is invalid, or an absent top-level
value) it produces the empty set of query pairs. -/
theorem marshalWithSettings_invalid_empty (s : QuerySettings) :
    MarshalWithSettings none s = ([] : Values)
    ∧ MarshalWithSettings (some .absent) s = ([] : Values) :=
  ⟨rfl, rfl⟩

/-- C3: a field whose value is Absent contributes no output pairs,
whatever the settings, prefix, key, or path-parameter flag; in particular
`CardListParams` with `AccountToken` `"abc"`, `Begin` absent, `End`
absent, `Page` 2, `PageSize` absent encodes under default settings to
exactly the pairs `("account_token","abc")` and `("page","2")`. -/
theorem absent_field_elision (s : QuerySettings) (pfx key : String) (pp : Bool) :
    encodeField s pfx (key, .absent, pp) = []
    ∧ Marshal (some (CardListParams.reflect ⟨.present "abc", .absent, .absent, .present 2, .absent⟩))
        = [("account_token", ["abc"]), ("page", ["2"])]
    ∧ encodeValue ⟨0, 0⟩ "" (CardListParams.reflect ⟨.present "abc", .absent, .absent, .present 2, .absent⟩)
        = [("account_token", "abc"), ("page", "2")] := by
  refine ⟨?_, by decide, by decide⟩
  simp [encodeField, encodeValue]

/-- C4 counterexample: two structs that differ only in field declaration
order — `{a:"1", b:"2"}` against `{b:"2", a:"1"}` — have different ordered
emission sequences, yet `MarshalWithSettings` returns for both the same
`url.Values` (the same value list at every key).  No reading of the
returned map can recover the emission order across distinct keys, so the
order is not observable in the returned result. -/
theorem marshal_order_not_observable :
    Values.Equiv
      (MarshalWithSettings (some (.struct [("a", .scalar (.strVal "1"), false), ("b", .scalar (.strVal "2"), false)])) ⟨0, 0⟩)
      (MarshalWithSettings (some (.struct [("b", .scalar (.strVal "2"), false), ("a", .scalar (.strVal "1"), false)])) ⟨0, 0⟩)
    ∧ encodeValue ⟨0, 0⟩ "" (.struct [("a", .scalar (.strVal "1"), false), ("b", .scalar (.strVal "2"), false)])
      ≠ encodeValue ⟨0, 0⟩ "" (.struct [("b", .scalar (.strVal "2"), false), ("a", .scalar (.strVal "1"), false)]) := by
  constructor
  · intro key
    by_cases h1 : key = "a" <;> by_cases h2 : key = "b" <;>
      simp_all [MarshalWithSettings, Values.ofPairs, Values.add, Values.get, encodeValue,
        encodeFields, encodeField, childKey]
  · decide

/-- C4 (amended): the encoder's internal emission is an ordered pair
sequence following struct declaration order and mapping insertion order,
and the returned `url.Values` holds at each key exactly the emitted values
for that key in emission order; the interleaving of pairs across distinct
keys is not exposed by the returned map. -/
theorem marshal_emission_order (s : QuerySettings) (pfx key : String)
    (f : NamedField) (fs : List NamedField)
    (en : String × EncodableValue) (es : List (String × EncodableValue))
    (v : EncodableValue) :
    encodeValue s pfx (.struct (f :: fs)) = encodeField s pfx f ++ encodeValue s pfx (.struct fs)
    ∧ encodeValue s pfx (.mapping (en :: es))
      = encodeValue s (childKey s.NestedFormat pfx en.1) en.2 ++ encodeValue s pfx (.mapping es)
    ∧ Values.get (MarshalWithSettings (some v) s) key
      = (encodeValue s "" v).filterMap (fun p => if p.1 = key then some p.2 else none) := by
  refine ⟨?_, ?_, ?_⟩
  · simp [encodeValue, encodeFields]
  · obtain ⟨k, v'⟩ := en
    simp [encodeValue, encodeEntries]
  · simp [MarshalWithSettings, Values.get_ofPairs]

/-- C5: with an empty prefix the child key is the field key itself;
otherwise `NestedQueryFormatBrackets` yields `prefix[fieldKey]` and
`NestedQueryFormatDots` yields `prefix.fieldKey`; hence a field `b` nested
inside field `a` at the root encodes under key `"a[b]"` with Brackets and
`"a.b"` with Dots. -/
theorem childKey_nested_formats (nf : NestedQueryFormat) (pfx key : String) (h : ¬ pfx = "") :
    childKey nf "" key = key
    ∧ childKey NestedQueryFormatBrackets pfx key = pfx ++ "[" ++ key ++ "]"
    ∧ childKey NestedQueryFormatDots pfx key = pfx ++ "." ++ key
    ∧ encodeValue ⟨NestedQueryFormatBrackets, ArrayQueryFormatComma⟩ ""
        (.struct [("a", .struct [("b", .scalar (.strVal "v"), false)], false)]) = [("a[b]", "v")]
    ∧ encodeValue ⟨NestedQueryFormatDots, ArrayQueryFormatComma⟩ ""
        (.struct [("a", .struct [("b", .scalar (.strVal "v"), false)], false)]) = [("a.b", "v")] := by
  refine ⟨by simp [childKey], ?_, ?_, by decide, by decide⟩
  · simp [childKey, h, NestedQueryFormatBrackets, NestedQueryFormatDots]
  · simp [childKey, h, NestedQueryFormatDots]

/-- Witness for `childKey_nested_formats` at prefix `"a"`, key `"b"`. -/
theorem childKey_nested_formats_witness :
    childKey NestedQueryFormatBrackets "a" "b" = "a[b]"
    ∧ childKey NestedQueryFormatDots "a" "b" = "a.b" :=
  ⟨(childKey_nested_formats NestedQueryFormatBrackets "a" "b" (by decide)).2.1.trans (by decide),
   (childKey_nested_formats NestedQueryFormatDots "a" "b" (by decide)).2.2.1.trans (by decide)⟩

/-- C6: a field carrying the `pathparam` tag is never emitted, for every
value, settings, prefix and key; concretely a tagged field nested at depth
2 with a non-absent value leaves no trace in the output. -/
theorem pathparam_field_excluded (s : QuerySettings) (pfx key : String) (v : EncodableValue) :
    encodeField s pfx (key, v, true) = []
    ∧ encodeValue ⟨0, 0⟩ ""
        (.struct [("a", .struct [("p", .scalar (.strVal "secret"), true), ("q", .scalar (.strVal "ok"), false)], false)])
      = [("a[q]", "ok")] := by
  refine ⟨?_, by decide⟩
  simp [encodeField]

/-- C7: a value exposing the `Queryer` capability is not recursed into —
its own pairs are spliced in with each key re-prefixed through the active
nested-format join rule (left unchanged when the prefix is empty); at
depth 1 under prefix `"x"` with Brackets nesting the pair `("k","v")`
becomes `("x[k]","v")`. -/
theorem queryer_splice (s : QuerySettings) (pfx : String) (ps : List (String × String)) :
    encodeValue s pfx (.queryer ps) = ps.map (fun p => (childKey s.NestedFormat pfx p.1, p.2))
    ∧ encodeValue s "" (.queryer ps) = ps
    ∧ encodeValue ⟨NestedQueryFormatBrackets, ArrayQueryFormatComma⟩ ""
        (.struct [("x", .queryer [("k", "v")], false)]) = [("x[k]", "v")] := by
  refine ⟨?_, ?_, by decide⟩
  · simp [encodeValue]
  · simp [encodeValue, childKey]

/-- C8: `Marshal` is `MarshalWithSettings` at the zero-valued
`QuerySettings` (`QuerySettings{}` in Go, both `int` fields 0), and that
zero value denotes `NestedQueryFormatBrackets` for nesting and
`ArrayQueryFormatComma` for arrays. -/
theorem marshal_is_default_settings (value : Option EncodableValue) :
    Marshal value = MarshalWithSettings value ⟨NestedQueryFormatBrackets, ArrayQueryFormatComma⟩
    ∧ NestedQueryFormatBrackets = (0 : Int)
    ∧ ArrayQueryFormatComma = (0 : Int) :=
  ⟨rfl, rfl, rfl⟩

/-- C9: encoding is a deterministic function of the input value and the
settings — two calls of `MarshalWithSettings` on equal arguments return
equal results.  In this embedding `MarshalWithSettings` is a total
function, so the absence of hidden state, side effects and I/O holds by
construction. -/
theorem marshalWithSettings_deterministic (v₁ v₂ : Option EncodableValue)
    (s₁ s₂ : QuerySettings) (hv : v₁ = v₂) (hs : s₁ = s₂) :
    MarshalWithSettings v₁ s₁ = MarshalWithSettings v₂ s₂ := by
  rw [hv, hs]

/-- Witness for `marshalWithSettings_deterministic` at a concrete call. -/
theorem marshalWithSettings_deterministic_witness :
    MarshalWithSettings (some seq123) ⟨0, 1⟩ = MarshalWithSettings (some seq123) ⟨0, 1⟩ :=
  marshalWithSettings_deterministic (some seq123) (some seq123) ⟨0, 1⟩ ⟨0, 1⟩ rfl rfl

/-- C10: `CardListParams.URLQuery` returns exactly `query.Marshal` of the
receiver — the generated type implements the `Queryer` capability by
delegating to the encoder with default (zero-valued) settings, so
`URLQuery` coincides with default-settings encoding of the reflected
struct. -/
theorem cardListParams_urlQuery_is_marshal (r : CardListParams) :
    CardListParams.URLQuery r = Marshal (some r.reflect)
    ∧ CardListParams.URLQuery r
      = MarshalWithSettings (some r.reflect) ⟨NestedQueryFormatBrackets, ArrayQueryFormatComma⟩ :=
  ⟨rfl, rfl⟩
